import Mathlib

/-!
# Verification of the CSRF guard and the key-sanitization routine

Shallow embedding of `src/middleware/authMiddleware.js` (the CSRF
protection half: `csrfProtection`, `csrfErrorHandler`, the token store
and its periodic sweep) and of the MongoDB key-sanitization middleware
(`clean` / `mongoSanitize`).

Modelling conventions:
* JavaScript `Map` and plain objects are modelled as association lists
  with JS semantics: `assocGet` finds the first matching key,
  `assocSet` updates an existing key in place (keeping its position)
  or appends a fresh one at the end, `assocDel` removes the first
  occurrence.
* Optional string-valued request fields are `Option String`; JS
  truthiness on them (`undefined` and `""` are falsy) is `truthy`, and
  the JS `a || b` chain on such values is `jsOr`.
* `crypto.randomBytes(...).toString('hex')` is a random source; each
  call site receives its output as an explicit oracle argument
  (`freshTok`, `freshSid`).
* Timestamps (`Date.now()`) are naturals measured in milliseconds and
  passed explicitly as `now`.
-/

set_option autoImplicit false

namespace Seo

/-- JS-style association-list lookup: first entry with the given key. -/
def assocGet {κ α : Type} [DecidableEq κ] : List (κ × α) → κ → Option α
  | [], _ => none
  | (k, v) :: rest, key => if k = key then some v else assocGet rest key

/-- JS-style `Map.set` / property assignment: replace the first entry with
the given key in place, or append a new entry at the end. -/
def assocSet {κ α : Type} [DecidableEq κ] : List (κ × α) → κ → α → List (κ × α)
  | [], key, val => [(key, val)]
  | (k, v) :: rest, key, val =>
    if k = key then (key, val) :: rest else (k, v) :: assocSet rest key val

/-- JS-style `Map.delete` / `delete obj[key]`: remove the first entry with
the given key. -/
def assocDel {κ α : Type} [DecidableEq κ] : List (κ × α) → κ → List (κ × α)
  | [], _ => []
  | (k, v) :: rest, key =>
    if k = key then rest else (k, v) :: assocDel rest key

/-- `true` when the key list contains no duplicate — the invariant JS
objects and `Map`s maintain by construction. -/
def nodupKeys {κ : Type} [DecidableEq κ] : List κ → Bool
  | [] => true
  | k :: rest => !(rest.contains k) && nodupKeys rest

/-- JS truthiness of an optional string: `undefined` and `""` are falsy. -/
def truthy : Option String → Bool
  | none => false
  | some s => !(s = "")

/-- JS `a || b` on optional strings: keeps `a` when truthy, else `b`. -/
def jsOr (a b : Option String) : Option String :=
  if truthy a then a else b

/-! ## The CSRF guard (`src/middleware/authMiddleware.js`, lines 213-331) -/

/-- A token-store record: `{ token, expires }` with `expires` an absolute
millisecond timestamp (line 253-256 of the source). -/
structure TokenRecord where
  token : String
  expires : Nat
  deriving DecidableEq, Repr

/-- The module-level `tokenStore` map from session id to record (line 223). -/
abbrev TokenStore : Type := List (String × TokenRecord)

/-- The hourly cleanup interval body (lines 226-233): delete every entry
with `now > data.expires`. -/
def sweep (now : Nat) (store : TokenStore) : TokenStore :=
  store.filter (fun kv => !(now > kv.2.expires))

/-- The inputs `csrfProtection` reads from the request object. -/
structure Request where
  method : String
  sessionID : Option String
  cookieSessionId : Option String
  bodyCsrf : Option String
  headerXCsrfToken : Option String
  cookieCsrfToken : Option String
  deriving DecidableEq, Repr

/-- The error object built on validation failure: `new Error(message)`
with `statusCode` and `code` fields attached (lines 278-280, 287-289). -/
structure CsrfErr where
  message : String
  statusCode : Nat
  code : String
  deriving DecidableEq, Repr

/-- Everything observable that one `csrfProtection` call produces: the
token store afterwards, the `csrf-token` cookie value set (if any), the
`res.locals.csrfToken` value (if any), and the error passed to `next`
(if any); `error = none` means plain `next()` was called. -/
structure CsrfOutcome where
  store : TokenStore
  cookie : Option String
  localsToken : Option String
  error : Option CsrfErr
  deriving DecidableEq, Repr

/-- Line 247: `['GET', 'HEAD', 'OPTIONS'].includes(req.method)`. -/
def safeMethod (m : String) : Bool :=
  ["GET", "HEAD", "OPTIONS"].contains m

/-- Line 271: `req.sessionID || req.cookies?.sessionId` — the session key
of an unsafe request, before the truthiness check. -/
def resolveSid (req : Request) : Option String :=
  jsOr req.sessionID req.cookieSessionId

/-- Lines 272-275: the candidate token
`req.body?._csrf || req.headers['x-csrf-token'] || req.cookies?.['csrf-token']`. -/
def resolveTok (req : Request) : Option String :=
  jsOr (jsOr req.bodyCsrf req.headerXCsrfToken) req.cookieCsrfToken

/-- Line 250: the session key a safe request stores its token under:
`req.sessionID || req.cookies?.sessionId || generateToken()`, with the
third `generateToken()` output supplied as the oracle `freshSid`. -/
def safeSessionId (req : Request) (freshSid : String) : String :=
  (jsOr (jsOr req.sessionID req.cookieSessionId) (some freshSid)).getD freshSid

/-- The token TTL: `60 * 60 * 1000` milliseconds (lines 255, 297). -/
def csrfTTL : Nat := 60 * 60 * 1000

/-- The error built at lines 278-281 when session key or token is absent. -/
def csrfMissingErr : CsrfErr :=
  { message := "CSRF token missing", statusCode := 403, code := "EBADCSRFTOKEN" }

/-- The error built at lines 287-290 when no record is stored or the
candidate mismatches. -/
def csrfInvalidErr : CsrfErr :=
  { message := "Invalid CSRF token", statusCode := 403, code := "EBADCSRFTOKEN" }

/-- `csrfProtection` (lines 245-309).  `now` is `Date.now()`; `freshTok`
is the output of the first `generateToken()` call of the taken branch
(line 249 or line 294) and `freshSid` the output of the fallback
`generateToken()` at line 250 (unused on unsafe requests). -/
def csrfProtection (now : Nat) (freshTok freshSid : String) (req : Request)
    (store : TokenStore) : CsrfOutcome :=
  if safeMethod req.method then
    let sessionId := safeSessionId req freshSid
    { store := assocSet store sessionId { token := freshTok, expires := now + csrfTTL }
      cookie := some freshTok
      localsToken := some freshTok
      error := none }
  else
    let sessionId := resolveSid req
    let tokenFromRequest := resolveTok req
    if !truthy sessionId || !truthy tokenFromRequest then
      { store := store, cookie := none, localsToken := none, error := some csrfMissingErr }
    else
      let sid := sessionId.getD ""
      let tok := tokenFromRequest.getD ""
      match assocGet store sid with
      | none =>
        { store := store, cookie := none, localsToken := none, error := some csrfInvalidErr }
      | some storedData =>
        if storedData.token ≠ tok then
          { store := store, cookie := none, localsToken := none, error := some csrfInvalidErr }
        else
          { store := assocSet store sid { token := freshTok, expires := now + csrfTTL }
            cookie := some freshTok
            localsToken := some freshTok
            error := none }

/-- What `csrfErrorHandler` (lines 314-331) does with an error. -/
inductive HandlerResult where
  | passOn
  | jsonResponse (status : Nat)
  | htmlResponse (status : Nat)
  deriving DecidableEq, Repr

/-- `csrfErrorHandler` (lines 314-331): forwards non-CSRF errors,
otherwise responds 403 as JSON (for `req.xhr` or JSON-accepting clients)
or as a rendered HTML page. -/
def csrfErrorHandler (err : CsrfErr) (xhr acceptsJson : Bool) : HandlerResult :=
  if err.code ≠ "EBADCSRFTOKEN" then .passOn
  else if xhr || acceptsJson then .jsonResponse 403
  else .htmlResponse 403

/-- One guard invocation's inputs, for reasoning about request traces. -/
structure GuardCall where
  now : Nat
  freshTok : String
  freshSid : String
  req : Request

/-- The token store after a sequence of guard invocations. -/
def runGuards (calls : List GuardCall) (store : TokenStore) : TokenStore :=
  calls.foldl (fun st c => (csrfProtection c.now c.freshTok c.freshSid c.req st).store) store

/-- Sample safe request: a GET carrying session id `S1`. -/
def reqGetS1 : Request :=
  { method := "GET", sessionID := some "S1", cookieSessionId := none,
    bodyCsrf := none, headerXCsrfToken := none, cookieCsrfToken := none }

/-- Sample unsafe request builder: a POST with the given session id and
token sources. -/
def postReq (sidOpt body header cookie : Option String) : Request :=
  { method := "POST", sessionID := sidOpt, cookieSessionId := none,
    bodyCsrf := body, headerXCsrfToken := header, cookieCsrfToken := cookie }

/-- The sample store holding the expired record for session `S3`. -/
def storeExpired : TokenStore := [("S3", { token := "T1", expires := 0 })]

/-- The candidate-token selection exactly as claim C5 words it: the body
field when present (regardless of its value), else the header when present,
else the cookie. -/
def specCandidateToken (req : Request) : Option String :=
  if req.bodyCsrf.isSome then req.bodyCsrf
  else if req.headerXCsrfToken.isSome then req.headerXCsrfToken
  else req.cookieCsrfToken

/-- The sample request whose `_csrf` body field is present but empty while a
valid token sits in the header. -/
def reqEmptyBodyCsrf : Request := postReq (some "S1") (some "") (some "T2") none

/-! ## The key-sanitization routine (`src/unnamed/part_000`, lines 210-269)

`clean` is embedded twice, at two levels of abstraction, both translated
from the same source lines:

* a value-level (tree) embedding `cleanT` over `JVal`, for properties of
  the resulting data (which keys remain);
* a heap-level embedding `cleanH` over explicit references, for the
  frame property (which objects are mutated in place versus copied).

Common modelling choices, faithful to the JS runtime:

* `for (const key in value)` enumerates the object's own keys as they
  were when the loop started (insertion order; integer-like keys, which
  cannot be `$`-prefixed or dotted, are ignored as an ordering detail),
  and the `hasOwnProperty` guard skips a key deleted by an earlier
  iteration.  Keys added during the loop are not enumerated.
* recursion depth is modelled by fuel; `none` means the fuel ran out
  (the JS original overflows the stack on cyclic input).
* the `value[key] !== cleanedValue` reference comparison at line 243
  only skips a write that would store back the identical reference; the
  model performs the (no-op) write unconditionally.
* the `onSanitize` callback and `req` logging argument do not affect the
  data and are omitted. -/

/-- Line 226: `key.startsWith('$')`. -/
def startsWithDollar (k : String) : Bool :=
  match k.data with
  | [] => false
  | c :: _ => c = '$'

/-- Line 226: `key.includes('.')`. -/
def containsDot (k : String) : Bool :=
  k.data.contains '.'

/-- Line 226: the forbidden-key test `key.startsWith('$') || key.includes('.')`. -/
def isBadKey (k : String) : Bool :=
  startsWithDollar k || containsDot k

/-- Line 227: `key.replace(/^\$|\./g, replaceWith)` — the regex `^` anchors
only at position 0, so exactly the leading character (when it is `$`, or a
leading `.` matched by the second alternative) and every `.` are replaced
by `rw`. -/
def sanitizeKey (rw k : String) : String :=
  match k.data with
  | [] => ""
  | c :: rest =>
    String.mk ((if c = '$' || c = '.' then rw.data else [c]) ++
      (rest.map (fun ch => if ch = '.' then rw.data else [ch])).flatten)

/-- A JS value as a tree: primitives, arrays, objects (own enumerable
string-keyed fields in insertion order). -/
inductive JVal where
  | vnull
  | vbool (b : Bool)
  | vnum (n : Int)
  | vstr (s : String)
  | varr (elems : List JVal)
  | vobj (fields : List (String × JVal))
  deriving Repr

/-- `true` for values hitting the line 211-213 early return: falsy or not
of `typeof === 'object'` (note `null` is falsy). -/
def isPrimJ : JVal → Bool
  | .varr _ => false
  | .vobj _ => false
  | _ => true

/-- Line 216: `value.map(v => clean(v, ...))`, left to right, propagating
fuel exhaustion. -/
def cleanElems (rec : JVal → Option JVal) : List JVal → Option (List JVal)
  | [] => some []
  | v :: vs =>
    match rec v with
    | none => none
    | some w =>
      match cleanElems rec vs with
      | none => none
      | some ws => some (w :: ws)

/-- Lines 220-248: the `for (const key in value)` loop.  `pending` is the
key enumeration captured at loop start; a key whose entry was deleted
meanwhile fails the `hasOwnProperty` check and is skipped.  For a bad key
the entry is deleted and the sanitized key assigned (lines 240-242);
otherwise the cleaned value is written back (lines 243-246). -/
def cleanLoopT (rw : String) (rec : JVal → Option JVal) :
    List String → List (String × JVal) → Option (List (String × JVal))
  | [], fields => some fields
  | k :: ks, fields =>
    match assocGet fields k with
    | none => cleanLoopT rw rec ks fields
    | some v =>
      match rec v with
      | none => none
      | some cv =>
        if isBadKey k then
          cleanLoopT rw rec ks (assocSet (assocDel fields k) (sanitizeKey rw k) cv)
        else
          cleanLoopT rw rec ks (assocSet fields k cv)

/-- `clean(value, replaceWith, ...)` (lines 210-251) at value level, with
`fuel` bounding recursion depth.  Primitives return unchanged (lines
211-213), arrays map (line 216), objects run the key loop (lines 220-248)
and return the object (line 250). -/
def cleanT (rw : String) : Nat → JVal → Option JVal
  | _, .vnull => some .vnull
  | _, .vbool b => some (.vbool b)
  | _, .vnum n => some (.vnum n)
  | _, .vstr s => some (.vstr s)
  | 0, .varr _ => none
  | 0, .vobj _ => none
  | fuel + 1, .varr es => (cleanElems (cleanT rw fuel) es).map .varr
  | fuel + 1, .vobj fields =>
    (cleanLoopT rw (cleanT rw fuel) (fields.map Prod.fst) fields).map .vobj

/-- A key acceptable after sanitization: not `$`-prefixed and dot-free
(the negation of the line 226 test). -/
def goodKeyB (k : String) : Bool :=
  !isBadKey k

mutual

/-- Every object key reachable in the value is a good key. -/
def goodVal : JVal → Bool
  | .vnull => true
  | .vbool _ => true
  | .vnum _ => true
  | .vstr _ => true
  | .varr es => goodElems es
  | .vobj fields => goodFields fields

def goodElems : List JVal → Bool
  | [] => true
  | v :: vs => goodVal v && goodElems vs

def goodFields : List (String × JVal) → Bool
  | [] => true
  | kv :: rest => goodKeyB kv.1 && goodVal kv.2 && goodFields rest

end

mutual

/-- Well-formedness JS guarantees for real values: every object's keys are
pairwise distinct, recursively. -/
def wfVal : JVal → Bool
  | .vnull => true
  | .vbool _ => true
  | .vnum _ => true
  | .vstr _ => true
  | .varr es => wfElems es
  | .vobj fields => nodupKeys (fields.map Prod.fst) && wfFields fields

def wfElems : List JVal → Bool
  | [] => true
  | v :: vs => wfVal v && wfElems vs

def wfFields : List (String × JVal) → Bool
  | [] => true
  | kv :: rest => wfVal kv.2 && wfFields rest

end

/-- Heap-level values: a primitive, or a reference to a heap cell. -/
inductive HVal where
  | hnull
  | hbool (b : Bool)
  | hnum (n : Int)
  | hstr (s : String)
  | href (a : Nat)
  deriving DecidableEq, Repr

/-- A heap cell: a plain object or an array. -/
inductive HObj where
  | hobj (fields : List (String × HVal))
  | harr (elems : List HVal)
  deriving DecidableEq, Repr

/-- An explicit heap: allocated cells and the next fresh address. -/
structure Heap where
  cells : List (Nat × HObj)
  next : Nat
  deriving DecidableEq, Repr

/-- Overwrite the cell at an (existing) address. -/
def updateCell (h : Heap) (a : Nat) (obj : HObj) : Heap :=
  { cells := assocSet h.cells a obj, next := h.next }

/-- Allocate a fresh cell, returning the reference to it. -/
def allocCell (h : Heap) (obj : HObj) : Heap × HVal :=
  ({ cells := h.cells ++ [(h.next, obj)], next := h.next + 1 }, .href h.next)

/-- `true` when the address holds a plain object. -/
def objAt (h : Heap) (a : Nat) : Bool :=
  match assocGet h.cells a with
  | some (.hobj _) => true
  | _ => false

/-- Heap-level `value.map(v => clean(v, ...))`: clean each element left to
right, threading the heap. -/
def cleanHElems (rec : Heap → HVal → Option (Heap × HVal)) :
    List HVal → Heap → Option (Heap × List HVal)
  | [], h => some (h, [])
  | v :: vs, h =>
    match rec h v with
    | none => none
    | some (h2, w) =>
      match cleanHElems rec vs h2 with
      | none => none
      | some (h3, ws) => some (h3, w :: ws)

/-- Heap-level key loop over the object at address `a` (lines 220-248):
re-reads the current fields before and after the recursive clean (aliasing
may have changed them), and mutates the cell at `a` in place. -/
def cleanHLoop (rw : String) (rec : Heap → HVal → Option (Heap × HVal)) (a : Nat) :
    List String → Heap → Option Heap
  | [], h => some h
  | k :: ks, h =>
    match assocGet h.cells a with
    | some (.hobj fields) =>
      match assocGet fields k with
      | none => cleanHLoop rw rec a ks h
      | some v =>
        match rec h v with
        | none => none
        | some (h2, cv) =>
          match assocGet h2.cells a with
          | some (.hobj fields2) =>
            let fields3 :=
              if isBadKey k then assocSet (assocDel fields2 k) (sanitizeKey rw k) cv
              else assocSet fields2 k cv
            cleanHLoop rw rec a ks (updateCell h2 a (.hobj fields3))
          | _ => none
    | _ => none

/-- `clean` (lines 210-251) at heap level.  Primitives return unchanged;
an array reference is rebuilt by `map` into a freshly allocated array cell
(line 216 allocates a new array); an object reference runs the key loop,
which mutates the object's own cell, and the very same reference is
returned (line 250 `return value`). -/
def cleanH (rw : String) : Nat → Heap → HVal → Option (Heap × HVal)
  | _, h, .hnull => some (h, .hnull)
  | _, h, .hbool b => some (h, .hbool b)
  | _, h, .hnum n => some (h, .hnum n)
  | _, h, .hstr s => some (h, .hstr s)
  | 0, _, .href _ => none
  | fuel + 1, h, .href a =>
    match assocGet h.cells a with
    | some (.harr elems) =>
      match cleanHElems (cleanH rw fuel) elems h with
      | none => none
      | some (h2, elems2) => some (allocCell h2 (.harr elems2))
    | some (.hobj fields) =>
      match cleanHLoop rw (cleanH rw fuel) a (fields.map Prod.fst) h with
      | none => none
      | some h2 => some (h2, .href a)
    | none => none

/-- A sample payload mixing `$`-keys, dotted keys, nesting and arrays. -/
def sampleDirty : JVal :=
  .vobj [("$where", .vstr "1"), ("a.b", .vobj [("$gt", .vnum 5)]),
         ("ok", .varr [.vobj [("x.y", .vnull)]])]

/-- What `cleanT` produces on `sampleDirty` (key `$where` deleted and
`_where` appended, and so on). -/
def sampleCleaned : JVal :=
  .vobj [("ok", .varr [.vobj [("x_y", .vnull)]]), ("_where", .vstr "1"),
         ("a_b", .vobj [("_gt", .vnum 5)])]

/-- A sample heap: object 0 holds a `$`-key referencing object 1 and an
array referencing object 1 again. -/
def heapSample : Heap :=
  { cells := [(0, .hobj [("$a", .href 1), ("arr", .href 2)]),
              (1, .hobj [("b.c", .hnum 3)]),
              (2, .harr [.href 1])], next := 3 }

/-- The heap after `cleanH` on `heapSample` from reference 0: cells 0 and 1
rewritten in place, the array rebuilt at the fresh address 3. -/
def heapSampleCleaned : Heap :=
  { cells := [(0, .hobj [("arr", .href 3), ("_a", .href 1)]),
              (1, .hobj [("b_c", .hnum 3)]),
              (2, .harr [.href 1]),
              (3, .harr [.href 1])], next := 4 }

/-! ## Association-list and truthiness lemmas -/

theorem truthy_some {s : String} (h : ¬s = "") : truthy (some s) = true := by
  simp [truthy, h]

theorem jsOr_of_truthy (a b : Option String) (h : truthy a = true) : jsOr a b = a := by
  simp [jsOr, h]

theorem jsOr_of_falsy (a b : Option String) (h : truthy a = false) : jsOr a b = b := by
  simp [jsOr, h]

theorem assocGet_assocSet {κ α : Type} [DecidableEq κ] (l : List (κ × α)) (k k2 : κ) (v : α) :
    assocGet (assocSet l k v) k2 = if k = k2 then some v else assocGet l k2 := by
  induction l with
  | nil => simp [assocSet, assocGet]
  | cons kv rest ih =>
    obtain ⟨k1, v1⟩ := kv
    by_cases h1 : k1 = k <;> by_cases h2 : k = k2 <;>
      simp_all [assocSet, assocGet]

theorem assocGet_eq_none_of_contains_eq_false {κ α : Type} [DecidableEq κ]
    (l : List (κ × α)) (k : κ) (h : (l.map Prod.fst).contains k = false) :
    assocGet l k = none := by
  induction l with
  | nil => rfl
  | cons kv rest ih =>
    obtain ⟨k1, v1⟩ := kv
    simp only [List.map_cons, List.contains_cons, Bool.or_eq_false_iff, beq_eq_false_iff_ne,
      ne_eq] at h
    have h1 : ¬k1 = k := fun hh => h.1 hh.symm
    simpa [assocGet, h1] using ih h.2

theorem assocGet_assocDel_self {κ α : Type} [DecidableEq κ] (l : List (κ × α)) (k : κ)
    (hnd : nodupKeys (l.map Prod.fst) = true) :
    assocGet (assocDel l k) k = none := by
  induction l with
  | nil => rfl
  | cons kv rest ih =>
    obtain ⟨k1, v1⟩ := kv
    simp only [List.map_cons, nodupKeys, Bool.and_eq_true] at hnd
    by_cases h1 : k1 = k
    · subst h1
      simpa [assocDel] using
        assocGet_eq_none_of_contains_eq_false rest k1 (by simpa using hnd.1)
    · simpa [assocDel, assocGet, h1] using ih hnd.2

theorem assocGet_sweep_expired (store : TokenStore) (sid : String) (r : TokenRecord)
    (now : Nat) (hnd : nodupKeys (store.map Prod.fst) = true)
    (hget : assocGet store sid = some r) (hexp : r.expires < now) :
    assocGet (sweep now store) sid = none := by
  induction store with
  | nil => simp [assocGet] at hget
  | cons kv rest ih =>
    obtain ⟨k1, r1⟩ := kv
    simp only [List.map_cons, nodupKeys, Bool.and_eq_true] at hnd
    by_cases h1 : k1 = sid
    · subst h1
      have hget1 : r1 = r := by simpa [assocGet] using hget
      subst hget1
      have hdrop : (!(now > r1.expires)) = false := by
        simp [hexp]
      have hmemrest : k1 ∉ rest.map Prod.fst := by
        have hc : (rest.map Prod.fst).contains k1 = false := by simpa using hnd.1
        intro hmm
        have hc2 : (rest.map Prod.fst).contains k1 = true := by simpa using hmm
        rw [hc2] at hc
        cases hc
      have hsub : ((sweep now rest).map Prod.fst).contains k1 = false := by
        by_cases hb : ((sweep now rest).map Prod.fst).contains k1 = true
        · exfalso
          have hmm : k1 ∈ (sweep now rest).map Prod.fst := by simpa using hb
          exact hmemrest ((List.Sublist.map Prod.fst (List.filter_sublist rest)).mem hmm)
        · simpa using hb
      simpa [sweep, hdrop] using assocGet_eq_none_of_contains_eq_false _ _ hsub
    · have hget' : assocGet rest sid = some r := by
        simpa [assocGet, h1] using hget
      have := ih hnd.2 hget'
      by_cases hkeep : (!(now > r1.expires)) = true <;>
        simp_all [sweep, assocGet, h1]

/-! ## Characterizations of the unsafe-request path -/

theorem csrf_unsafe_no_record (now : Nat) (ft fs : String) (req : Request)
    (store : TokenStore) (sid t : String)
    (hm : safeMethod req.method = false)
    (hsid : resolveSid req = some sid) (hsidT : ¬sid = "")
    (htok : resolveTok req = some t) (htokT : ¬t = "")
    (hnone : assocGet store sid = none) :
    csrfProtection now ft fs req store =
      { store := store, cookie := none, localsToken := none, error := some csrfInvalidErr } := by
  simp [csrfProtection, hm, hsid, htok, truthy, hsidT, htokT, hnone]

theorem csrf_unsafe_validate_iff (now : Nat) (ft fs : String) (req : Request)
    (store : TokenStore) (sid t : String) (r : TokenRecord)
    (hm : safeMethod req.method = false)
    (hsid : resolveSid req = some sid) (hsidT : ¬sid = "")
    (htok : resolveTok req = some t) (htokT : ¬t = "")
    (hrec : assocGet store sid = some r) :
    (csrfProtection now ft fs req store).error = none ↔ t = r.token := by
  by_cases htr : r.token = t
  · subst htr
    simp [csrfProtection, hm, hsid, htok, truthy, hsidT, htokT, hrec]
  · simp [csrfProtection, hm, hsid, htok, truthy, hsidT, htokT, hrec, htr,
      Ne.symm htr]

theorem csrf_unsafe_mismatch (now : Nat) (ft fs : String) (req : Request)
    (store : TokenStore) (sid t : String) (r : TokenRecord)
    (hm : safeMethod req.method = false)
    (hsid : resolveSid req = some sid) (hsidT : ¬sid = "")
    (htok : resolveTok req = some t) (htokT : ¬t = "")
    (hrec : assocGet store sid = some r) (htr : ¬r.token = t) :
    csrfProtection now ft fs req store =
      { store := store, cookie := none, localsToken := none, error := some csrfInvalidErr } := by
  simp [csrfProtection, hm, hsid, htok, truthy, hsidT, htokT, hrec, htr]

theorem csrf_unsafe_success (now : Nat) (ft fs : String) (req : Request)
    (store : TokenStore) (sid t : String)
    (hm : safeMethod req.method = false)
    (hsid : resolveSid req = some sid)
    (htok : resolveTok req = some t)
    (hsucc : (csrfProtection now ft fs req store).error = none) :
    ¬sid = "" ∧ ¬t = "" ∧
      (csrfProtection now ft fs req store).store =
        assocSet store sid { token := ft, expires := now + csrfTTL } := by
  by_cases hsidT : sid = ""
  · simp [csrfProtection, hm, hsid, truthy, hsidT] at hsucc
  · by_cases htokT : t = ""
    · simp [csrfProtection, hm, hsid, htok, truthy, hsidT, htokT] at hsucc
    · refine ⟨hsidT, htokT, ?_⟩
      cases hrec : assocGet store sid with
      | none =>
        rw [csrf_unsafe_no_record now ft fs req store sid t hm hsid hsidT htok htokT hrec]
          at hsucc
        simp at hsucc
      | some r =>
        by_cases htr : r.token = t
        · subst htr
          simp [csrfProtection, hm, hsid, htok, truthy, hsidT, htokT, hrec]
        · rw [csrf_unsafe_mismatch now ft fs req store sid t r hm hsid hsidT htok htokT
            hrec htr] at hsucc
          simp at hsucc

theorem csrfProtection_cases (now : Nat) (ft fs : String) (req : Request)
    (store : TokenStore) :
    csrfProtection now ft fs req store =
      { store := store, cookie := none, localsToken := none, error := some csrfMissingErr } ∨
    csrfProtection now ft fs req store =
      { store := store, cookie := none, localsToken := none, error := some csrfInvalidErr } ∨
    ∃ sid2, csrfProtection now ft fs req store =
      { store := assocSet store sid2 { token := ft, expires := now + csrfTTL },
        cookie := some ft, localsToken := some ft, error := none } := by
  unfold csrfProtection
  split
  · exact Or.inr (Or.inr ⟨_, rfl⟩)
  · simp only
    split
    · exact Or.inl rfl
    · split
      · exact Or.inr (Or.inl rfl)
      · split
        · exact Or.inr (Or.inl rfl)
        · exact Or.inr (Or.inr ⟨_, rfl⟩)

theorem csrf_step_preserves_consumed (now : Nat) (ft fs : String) (req : Request)
    (store : TokenStore) (sid t : String) (hft : ¬ft = t)
    (h : ∀ r : TokenRecord, assocGet store sid = some r → ¬r.token = t) :
    ∀ r : TokenRecord,
      assocGet (csrfProtection now ft fs req store).store sid = some r → ¬r.token = t := by
  rcases csrfProtection_cases now ft fs req store with hc | hc | ⟨sid2, hc⟩ <;>
    rw [hc] <;> intro r hr
  · exact h r hr
  · exact h r hr
  · simp only at hr
    rw [assocGet_assocSet] at hr
    by_cases h2 : sid2 = sid
    · rw [if_pos h2] at hr
      cases hr
      simpa using hft
    · rw [if_neg h2] at hr
      exact h r hr

theorem runGuards_preserves_consumed (calls : List GuardCall) (store : TokenStore)
    (sid t : String) (hcalls : ∀ c ∈ calls, ¬c.freshTok = t)
    (h : ∀ r : TokenRecord, assocGet store sid = some r → ¬r.token = t) :
    ∀ r : TokenRecord, assocGet (runGuards calls store) sid = some r → ¬r.token = t := by
  induction calls generalizing store with
  | nil => exact h
  | cons c cs ih =>
    exact ih _ (fun c2 hc2 => hcalls c2 (List.mem_cons_of_mem c hc2))
      (csrf_step_preserves_consumed c.now c.freshTok c.freshSid c.req store sid t
        (hcalls c (List.mem_cons_self c cs)) h)

/-! ## Claim theorems for the CSRF guard -/

/-- C3: for every request with method in {GET, HEAD, OPTIONS}, regardless of
the token-store state and of any presented token, the guard proceeds without
error, stores a freshly generated token under the resolved session key, and
sets that token as the `csrf-token` cookie (and as the template-visible
token). -/
theorem csrf_safe_requests_never_blocked (now : Nat) (freshTok freshSid : String)
    (req : Request) (store : TokenStore) (h : safeMethod req.method = true) :
    (csrfProtection now freshTok freshSid req store).error = none ∧
    (csrfProtection now freshTok freshSid req store).cookie = some freshTok ∧
    (csrfProtection now freshTok freshSid req store).localsToken = some freshTok ∧
    assocGet (csrfProtection now freshTok freshSid req store).store
      (safeSessionId req freshSid) = some { token := freshTok, expires := now + csrfTTL } := by
  simp [csrfProtection, h, assocGet_assocSet]

/-- Witness for C3 at a concrete GET request over the empty store. -/
theorem csrf_safe_requests_never_blocked_witness :
    (csrfProtection 0 "T2" "S9" reqGetS1 []).error = none ∧
    (csrfProtection 0 "T2" "S9" reqGetS1 []).cookie = some "T2" ∧
    (csrfProtection 0 "T2" "S9" reqGetS1 []).localsToken = some "T2" ∧
    assocGet (csrfProtection 0 "T2" "S9" reqGetS1 []).store (safeSessionId reqGetS1 "S9") =
      some { token := "T2", expires := 0 + csrfTTL } :=
  csrf_safe_requests_never_blocked 0 "T2" "S9" reqGetS1 [] (by decide)

/-- C4: an unsafe request with no `req.sessionID` and no `sessionId` cookie is
rejected with the missing-credentials error, whatever the store contains and
whatever candidate token is presented. -/
theorem csrf_missing_session_always_rejects (now : Nat) (ft fs : String) (req : Request)
    (store : TokenStore) (hm : safeMethod req.method = false)
    (h1 : req.sessionID = none) (h2 : req.cookieSessionId = none) :
    (csrfProtection now ft fs req store).error = some csrfMissingErr := by
  simp [csrfProtection, hm, resolveSid, jsOr, truthy, h1, h2]

/-- Witness for C4: the candidate equals the stored token value for key `K`,
yet the sessionless POST is rejected. -/
theorem csrf_missing_session_always_rejects_witness :
    (csrfProtection 9 "F" "G" (postReq none (some "TOK") none none)
      [("K", { token := "TOK", expires := 99 })]).error = some csrfMissingErr :=
  csrf_missing_session_always_rejects 9 "F" "G" (postReq none (some "TOK") none none)
    [("K", { token := "TOK", expires := 99 })] (by decide) (by decide) (by decide)

/-- C6: with a record stored for the resolved session key, validation of an
unsafe request succeeds exactly when the candidate token is character-for-
character equal (Lean string equality) to the stored token; any difference,
including letter case alone, fails, and no normalization is applied. -/
theorem csrf_exact_match_only (now : Nat) (ft fs : String) (req : Request)
    (store : TokenStore) (sid t : String) (r : TokenRecord)
    (hm : safeMethod req.method = false)
    (hsid : resolveSid req = some sid) (hsidT : ¬sid = "")
    (htok : resolveTok req = some t) (htokT : ¬t = "")
    (hrec : assocGet store sid = some r) :
    (csrfProtection now ft fs req store).error = none ↔ t = r.token :=
  csrf_unsafe_validate_iff now ft fs req store sid t r hm hsid hsidT htok htokT hrec

/-- Witness for C6: candidate `secret` differs from stored `Secret` only by
case, and validation fails. -/
theorem csrf_exact_match_only_witness :
    ¬(csrfProtection 3 "N" "M" (postReq (some "S1") (some "secret") none none)
        [("S1", { token := "Secret", expires := 77 })]).error = none := by
  intro hn
  exact absurd
    ((csrf_exact_match_only 3 "N" "M" (postReq (some "S1") (some "secret") none none)
      [("S1", { token := "Secret", expires := 77 })] "S1" "secret"
      { token := "Secret", expires := 77 }
      (by decide) (by decide) (by decide) (by decide) (by decide) (by decide)).mp hn)
    (by decide)

/-- C7: every validation failure of the guard carries
`code = "EBADCSRFTOKEN"` and `statusCode = 403`, and the boundary error
handler turns any such error into a 403 response (JSON or HTML); failure
kinds are not distinguishable by code or status. -/
theorem csrf_failures_uniform_code_403 (now : Nat) (ft fs : String) (req : Request)
    (store : TokenStore) (e : CsrfErr)
    (h : (csrfProtection now ft fs req store).error = some e) :
    e.code = "EBADCSRFTOKEN" ∧ e.statusCode = 403 ∧
    ∀ xhr acceptsJson : Bool,
      csrfErrorHandler e xhr acceptsJson = HandlerResult.jsonResponse 403 ∨
      csrfErrorHandler e xhr acceptsJson = HandlerResult.htmlResponse 403 := by
  have he : e = csrfMissingErr ∨ e = csrfInvalidErr := by
    rcases csrfProtection_cases now ft fs req store with hc | hc | ⟨sid2, hc⟩ <;>
      rw [hc] at h
    · exact Or.inl (by simpa using h.symm)
    · exact Or.inr (by simpa using h.symm)
    · simp at h
  rcases he with he | he <;> subst he <;> exact ⟨by decide, by decide, by decide⟩

/-- Witness for C7 at the concrete missing-credentials rejection. -/
theorem csrf_failures_uniform_code_403_witness :
    csrfMissingErr.code = "EBADCSRFTOKEN" ∧ csrfMissingErr.statusCode = 403 ∧
    (csrfErrorHandler csrfMissingErr false false = HandlerResult.jsonResponse 403 ∨
      csrfErrorHandler csrfMissingErr false false = HandlerResult.htmlResponse 403) := by
  have h := csrf_failures_uniform_code_403 9 "F" "G" (postReq none (some "TOK") none none)
    [] csrfMissingErr (by decide)
  exact ⟨h.1, h.2.1, h.2.2 false false⟩

/-- C9: a rejected unsafe request leaves the token store exactly as it was
and sets no `csrf-token` cookie (and no template token). -/
theorem csrf_rejection_is_atomic (now : Nat) (ft fs : String) (req : Request)
    (store : TokenStore) (e : CsrfErr)
    (_hm : safeMethod req.method = false)
    (h : (csrfProtection now ft fs req store).error = some e) :
    (csrfProtection now ft fs req store).store = store ∧
    (csrfProtection now ft fs req store).cookie = none ∧
    (csrfProtection now ft fs req store).localsToken = none := by
  rcases csrfProtection_cases now ft fs req store with hc | hc | ⟨sid2, hc⟩ <;> rw [hc]
  · exact ⟨rfl, rfl, rfl⟩
  · exact ⟨rfl, rfl, rfl⟩
  · rw [hc] at h
    simp at h

/-- Witness for C9: the store survives a mismatching POST untouched. -/
theorem csrf_rejection_is_atomic_witness :
    (csrfProtection 5 "F" "G" (postReq (some "S1") (some "WRONG") none none)
      [("S1", { token := "RIGHT", expires := 50 })]).store =
        [("S1", { token := "RIGHT", expires := 50 })] ∧
    (csrfProtection 5 "F" "G" (postReq (some "S1") (some "WRONG") none none)
      [("S1", { token := "RIGHT", expires := 50 })]).cookie = none ∧
    (csrfProtection 5 "F" "G" (postReq (some "S1") (some "WRONG") none none)
      [("S1", { token := "RIGHT", expires := 50 })]).localsToken = none :=
  csrf_rejection_is_atomic 5 "F" "G" (postReq (some "S1") (some "WRONG") none none)
    [("S1", { token := "RIGHT", expires := 50 })] csrfInvalidErr (by decide) (by decide)

/-- C2: once an unsafe request has successfully validated token `t` for
session key `sid`, any later unsafe request for `sid` presenting `t` again is
rejected with the invalid-token error — across any interleaved sequence of
guard invocations, as long as the randomly generated replacement tokens
(modelled as oracle inputs) differ from `t`. -/
theorem csrf_rotation_consumes_token (now1 now2 : Nat) (ft1 fs1 ft2 fs2 : String)
    (req1 req2 : Request) (store : TokenStore) (calls : List GuardCall) (sid t : String)
    (hm1 : safeMethod req1.method = false)
    (hsid1 : resolveSid req1 = some sid) (htok1 : resolveTok req1 = some t)
    (hsucc : (csrfProtection now1 ft1 fs1 req1 store).error = none)
    (hft : ¬ft1 = t) (hcalls : ∀ c ∈ calls, ¬c.freshTok = t)
    (hm2 : safeMethod req2.method = false)
    (hsid2 : resolveSid req2 = some sid) (htok2 : resolveTok req2 = some t) :
    (csrfProtection now2 ft2 fs2 req2
      (runGuards calls (csrfProtection now1 ft1 fs1 req1 store).store)).error =
        some csrfInvalidErr := by
  obtain ⟨hsidT, htokT, hstore⟩ :=
    csrf_unsafe_success now1 ft1 fs1 req1 store sid t hm1 hsid1 htok1 hsucc
  have hstart : ∀ r : TokenRecord,
      assocGet (csrfProtection now1 ft1 fs1 req1 store).store sid = some r →
      ¬r.token = t := by
    rw [hstore]
    intro r hr
    rw [assocGet_assocSet, if_pos rfl] at hr
    cases hr
    simpa using hft
  have hfin := runGuards_preserves_consumed calls _ sid t hcalls hstart
  cases hget : assocGet (runGuards calls (csrfProtection now1 ft1 fs1 req1 store).store) sid
    with
  | none =>
    rw [csrf_unsafe_no_record now2 ft2 fs2 req2 _ sid t hm2 hsid2 hsidT htok2 htokT hget]
  | some r =>
    rw [csrf_unsafe_mismatch now2 ft2 fs2 req2 _ sid t r hm2 hsid2 hsidT htok2 htokT hget
      (hfin r hget)]

/-- Witness for C2: token `T1` validates once for `S1`, a GET re-issue for
another session happens in between, and the replay of `T1` is rejected. -/
theorem csrf_rotation_consumes_token_witness :
    (csrfProtection 20 "T9" "X2" (postReq (some "S1") (some "T1") none none)
      (runGuards [{ now := 15, freshTok := "T5", freshSid := "Y", req := reqGetS1 }]
        (csrfProtection 10 "T2" "X1" (postReq (some "S1") (some "T1") none none)
          [("S1", { token := "T1", expires := 50 })]).store)).error =
      some csrfInvalidErr :=
  csrf_rotation_consumes_token 10 20 "T2" "X1" "T9" "X2"
    (postReq (some "S1") (some "T1") none none) (postReq (some "S1") (some "T1") none none)
    [("S1", { token := "T1", expires := 50 })]
    [{ now := 15, freshTok := "T5", freshSid := "Y", req := reqGetS1 }] "S1" "T1"
    (by decide) (by decide) (by decide) (by decide) (by decide)
    (by
      intro c hc
      rw [List.mem_singleton] at hc
      subst hc
      decide)
    (by decide) (by decide) (by decide)

/-- Counterexample to C1: at `now = 1` the record for `S3` has
`expires = 0 < 1`, i.e. its TTL has elapsed, yet the matching candidate
`T1` still validates successfully (`error = none`) — not at all as if the
record were absent.  Validation (lines 284-291) never consults `expires`;
only the hourly sweep (lines 226-233) removes expired records. -/
theorem csrf_expired_record_still_validates :
    assocGet storeExpired "S3" = some { token := "T1", expires := 0 } ∧
    (0 : Nat) < 1 ∧
    (csrfProtection 1 "F" "G" (postReq (some "S3") (some "T1") none none)
      storeExpired).error = none := by decide

/-- C1 (amended): validation itself ignores `expiresAt`; but once the
periodic sweep has run at a time `now` past the record's expiry, validating
the matching candidate fails exactly as with an absent record: the same
invalid-token error, no cookie, no template token, and an untouched store —
identical to running against the store with the record deleted. -/
theorem csrf_expiry_effective_after_sweep (now now2 : Nat) (ft fs : String)
    (req : Request) (store : TokenStore) (sid t : String) (r : TokenRecord)
    (hnd : nodupKeys (store.map Prod.fst) = true)
    (hm : safeMethod req.method = false)
    (hsid : resolveSid req = some sid) (hsidT : ¬sid = "")
    (htok : resolveTok req = some t) (htokT : ¬t = "")
    (hrec : assocGet store sid = some r) (hexp : r.expires < now) :
    csrfProtection now2 ft fs req (sweep now store) =
      { store := sweep now store, cookie := none, localsToken := none,
        error := some csrfInvalidErr } ∧
    csrfProtection now2 ft fs req (assocDel store sid) =
      { store := assocDel store sid, cookie := none, localsToken := none,
        error := some csrfInvalidErr } := by
  constructor
  · exact csrf_unsafe_no_record now2 ft fs req (sweep now store) sid t hm hsid hsidT htok
      htokT (assocGet_sweep_expired store sid r now hnd hrec hexp)
  · exact csrf_unsafe_no_record now2 ft fs req (assocDel store sid) sid t hm hsid hsidT htok
      htokT (assocGet_assocDel_self store sid hnd)

/-- Witness for the amended C1 at the concrete expired record of `S3`. -/
theorem csrf_expiry_effective_after_sweep_witness :
    csrfProtection 2 "F" "G" (postReq (some "S3") (some "T1") none none)
      (sweep 1 storeExpired) =
      { store := sweep 1 storeExpired, cookie := none, localsToken := none,
        error := some csrfInvalidErr } ∧
    csrfProtection 2 "F" "G" (postReq (some "S3") (some "T1") none none)
      (assocDel storeExpired "S3") =
      { store := assocDel storeExpired "S3", cookie := none, localsToken := none,
        error := some csrfInvalidErr } :=
  csrf_expiry_effective_after_sweep 1 2 "F" "G" (postReq (some "S3") (some "T1") none none)
    storeExpired "S3" "T1" { token := "T1", expires := 0 }
    (by decide) (by decide) (by decide) (by decide) (by decide) (by decide) (by decide)
    (by decide)

/-- Counterexample to C5: the `_csrf` body field is present (with value ""),
so per the claim the candidate would be "" and validation against the stored
token `T2` would fail; the code instead falls through the JS `||` chain to
the header (empty strings are falsy) and the request succeeds. -/
theorem csrf_body_field_present_but_ignored :
    reqEmptyBodyCsrf.bodyCsrf.isSome = true ∧
    specCandidateToken reqEmptyBodyCsrf = some "" ∧
    resolveTok reqEmptyBodyCsrf = some "T2" ∧
    (csrfProtection 5 "F" "G" reqEmptyBodyCsrf
      [("S1", { token := "T2", expires := 99 })]).error = none := by decide

/-- C5 (amended): the candidate token is taken from the `_csrf` body field
when present and non-empty; otherwise from the `x-csrf-token` header when
present and non-empty; otherwise from the `csrf-token` cookie — an
empty-string source falls through, per JS truthiness.  In each case, with a
record stored for the session key, validation succeeds exactly when that
candidate matches the stored token; in particular a valid token supplied
only via the body field passes. -/
theorem csrf_token_priority_truthy (now : Nat) (ft fs : String) (req : Request)
    (store : TokenStore) (sid : String) (r : TokenRecord)
    (hm : safeMethod req.method = false)
    (hsid : resolveSid req = some sid) (hsidT : ¬sid = "")
    (hrec : assocGet store sid = some r) :
    (∀ t, req.bodyCsrf = some t → ¬t = "" →
        ((csrfProtection now ft fs req store).error = none ↔ t = r.token)) ∧
    (truthy req.bodyCsrf = false → ∀ t, req.headerXCsrfToken = some t → ¬t = "" →
        ((csrfProtection now ft fs req store).error = none ↔ t = r.token)) ∧
    (truthy req.bodyCsrf = false → truthy req.headerXCsrfToken = false →
      ∀ t, req.cookieCsrfToken = some t → ¬t = "" →
        ((csrfProtection now ft fs req store).error = none ↔ t = r.token)) := by
  refine ⟨?_, ?_, ?_⟩
  · intro t hb hbne
    have htok : resolveTok req = some t := by
      rw [resolveTok, hb, jsOr_of_truthy _ _ (truthy_some hbne),
        jsOr_of_truthy _ _ (truthy_some hbne)]
    exact csrf_unsafe_validate_iff now ft fs req store sid t r hm hsid hsidT htok hbne hrec
  · intro hbf t hh hhne
    have htok : resolveTok req = some t := by
      rw [resolveTok, jsOr_of_falsy _ _ hbf, hh, jsOr_of_truthy _ _ (truthy_some hhne)]
    exact csrf_unsafe_validate_iff now ft fs req store sid t r hm hsid hsidT htok hhne hrec
  · intro hbf hhf t hc hcne
    have htok : resolveTok req = some t := by
      rw [resolveTok, jsOr_of_falsy _ _ hbf, jsOr_of_falsy _ _ hhf, hc]
    exact csrf_unsafe_validate_iff now ft fs req store sid t r hm hsid hsidT htok hcne hrec

/-- Witness for the amended C5: a valid token supplied only via the `_csrf`
body field passes validation. -/
theorem csrf_token_priority_truthy_witness :
    (csrfProtection 4 "Z" "W" (postReq (some "S1") (some "T2") none none)
      [("S1", { token := "T2", expires := 99 })]).error = none :=
  ((csrf_token_priority_truthy 4 "Z" "W" (postReq (some "S1") (some "T2") none none)
      [("S1", { token := "T2", expires := 99 })] "S1" { token := "T2", expires := 99 }
      (by decide) (by decide) (by decide) (by decide)).1 "T2" rfl (by decide)).mpr rfl

/-! ## Lemmas about keys and association-list mutation for the sanitizer -/

theorem contains_eq_false_of_not_mem {κ : Type} [DecidableEq κ] (l : List κ) (a : κ)
    (h : a ∉ l) : l.contains a = false := by
  by_cases hb : l.contains a = true
  · exact absurd (by simpa using hb) h
  · simpa using hb

theorem dot_not_mem_sanitized (rest : List Char) :
    ('.' : Char) ∉ (rest.map (fun ch => if ch = '.' then String.data "_" else [ch])).flatten := by
  induction rest with
  | nil => simp
  | cons ch rest ih =>
    intro hm
    simp only [List.map_cons, List.flatten_cons, List.mem_append] at hm
    rcases hm with hm1 | hm2
    · by_cases hch : ch = '.'
      · rw [if_pos hch] at hm1
        exact absurd hm1 (by decide)
      · rw [if_neg hch] at hm1
        simp only [List.mem_singleton] at hm1
        exact hch hm1.symm
    · exact ih hm2

theorem isBadKey_sanitizeKey (k : String) : isBadKey (sanitizeKey "_" k) = false := by
  unfold sanitizeKey
  cases hk : k.data with
  | nil => decide
  | cons c rest =>
    simp only
    unfold isBadKey startsWithDollar containsDot
    have hdata : (String.mk ((if c = '$' || c = '.' then String.data "_" else [c]) ++
        (rest.map (fun ch => if ch = '.' then String.data "_" else [ch])).flatten)).data =
        (if c = '$' || c = '.' then String.data "_" else [c]) ++
        (rest.map (fun ch => if ch = '.' then String.data "_" else [ch])).flatten := rfl
    rw [hdata]
    by_cases hc : c = '$' || c = '.'
    · rw [if_pos hc]
      have h1 : String.data "_" = ['_'] := rfl
      rw [h1]
      simp only [List.cons_append, Bool.or_eq_false_iff]
      constructor
      · decide
      · apply contains_eq_false_of_not_mem
        intro hm
        rcases List.mem_cons.mp hm with hm | hm
        · exact absurd hm (by decide)
        · rw [List.nil_append] at hm
          exact dot_not_mem_sanitized rest hm
    · rw [if_neg hc]
      simp only [Bool.or_eq_true, decide_eq_true_eq] at hc
      push_neg at hc
      simp only [List.cons_append, Bool.or_eq_false_iff]
      constructor
      · simpa using hc.1
      · apply contains_eq_false_of_not_mem
        intro hm
        rcases List.mem_cons.mp hm with hm | hm
        · exact hc.2 hm.symm
        · rw [List.nil_append] at hm
          exact dot_not_mem_sanitized rest hm

theorem assocGet_mem {κ α : Type} [DecidableEq κ] (l : List (κ × α)) (k : κ) (v : α)
    (h : assocGet l k = some v) : (k, v) ∈ l := by
  induction l with
  | nil => simp [assocGet] at h
  | cons kv rest ih =>
    obtain ⟨k1, v1⟩ := kv
    by_cases h1 : k1 = k
    · subst h1
      have : v1 = v := by simpa [assocGet] using h
      subst this
      exact List.mem_cons_self _ _
    · exact List.mem_cons_of_mem _ (ih (by simpa [assocGet, h1] using h))

theorem assocGet_none_key_ne {κ α : Type} [DecidableEq κ] (l : List (κ × α)) (k : κ)
    (h : assocGet l k = none) : ∀ kv ∈ l, ¬kv.1 = k := by
  induction l with
  | nil => simp
  | cons kv0 rest ih =>
    obtain ⟨k1, v1⟩ := kv0
    by_cases h1 : k1 = k
    · simp [assocGet, h1] at h
    · intro kv hm
      rcases List.mem_cons.mp hm with hm | hm
      · subst hm
        exact h1
      · exact ih (by simpa [assocGet, h1] using h) kv hm

theorem assocDel_sublist {κ α : Type} [DecidableEq κ] (l : List (κ × α)) (key : κ) :
    List.Sublist (assocDel l key) l := by
  induction l with
  | nil => simp [assocDel]
  | cons kv rest ih =>
    obtain ⟨k1, v1⟩ := kv
    by_cases h1 : k1 = key
    · rw [assocDel, if_pos h1]
      exact List.sublist_cons_self (k1, v1) rest
    · rw [assocDel, if_neg h1]
      exact List.Sublist.cons₂ (k1, v1) ih

theorem nodupKeys_iff {κ : Type} [DecidableEq κ] (l : List κ) :
    nodupKeys l = true ↔ l.Nodup := by
  induction l with
  | nil => simp [nodupKeys]
  | cons k rest ih =>
    simp [nodupKeys, List.nodup_cons, ih]

theorem nodupKeys_assocDel {κ α : Type} [DecidableEq κ] (l : List (κ × α)) (key : κ)
    (h : nodupKeys (l.map Prod.fst) = true) :
    nodupKeys ((assocDel l key).map Prod.fst) = true := by
  rw [nodupKeys_iff] at h ⊢
  exact List.Nodup.sublist ((assocDel_sublist l key).map Prod.fst) h

theorem mem_assocDel {κ α : Type} [DecidableEq κ] (l : List (κ × α)) (key : κ)
    (kv : κ × α) (hnd : nodupKeys (l.map Prod.fst) = true)
    (hm : kv ∈ assocDel l key) : kv ∈ l ∧ ¬kv.1 = key := by
  refine ⟨(assocDel_sublist l key).subset hm, ?_⟩
  exact assocGet_none_key_ne (assocDel l key) key (assocGet_assocDel_self l key hnd) kv hm

theorem keys_assocSet {κ α : Type} [DecidableEq κ] (l : List (κ × α)) (key : κ) (val : α) :
    (assocSet l key val).map Prod.fst =
      if key ∈ l.map Prod.fst then l.map Prod.fst else l.map Prod.fst ++ [key] := by
  induction l with
  | nil => simp [assocSet]
  | cons kv rest ih =>
    obtain ⟨k1, v1⟩ := kv
    by_cases h1 : k1 = key
    · simp [assocSet, h1]
    · have h2 : ¬key = k1 := fun hh => h1 hh.symm
      by_cases hmem : key ∈ rest.map Prod.fst <;>
        simp [assocSet, h1, ih, hmem, h2]

theorem nodupKeys_assocSet {κ α : Type} [DecidableEq κ] (l : List (κ × α)) (key : κ)
    (val : α) (h : nodupKeys (l.map Prod.fst) = true) :
    nodupKeys ((assocSet l key val).map Prod.fst) = true := by
  rw [nodupKeys_iff] at h ⊢
  rw [keys_assocSet]
  by_cases hmem : key ∈ l.map Prod.fst
  · simpa [hmem] using h
  · have hdj : List.Disjoint (l.map Prod.fst) [key] := by
      intro a ha hha
      rw [List.mem_singleton] at hha
      subst hha
      exact hmem ha
    simpa [hmem] using List.Nodup.append h (List.nodup_singleton key) hdj

theorem mem_assocSet {κ α : Type} [DecidableEq κ] (l : List (κ × α)) (key : κ) (val : α)
    (kv : κ × α) (hnd : nodupKeys (l.map Prod.fst) = true)
    (hm : kv ∈ assocSet l key val) :
    kv = (key, val) ∨ (kv ∈ l ∧ ¬kv.1 = key) := by
  induction l with
  | nil =>
    simp only [assocSet, List.mem_singleton] at hm
    exact Or.inl hm
  | cons kv0 rest ih =>
    obtain ⟨k1, v1⟩ := kv0
    simp only [List.map_cons, nodupKeys, Bool.and_eq_true] at hnd
    by_cases h1 : k1 = key
    · subst h1
      rw [assocSet, if_pos rfl] at hm
      rcases List.mem_cons.mp hm with hm | hm
      · exact Or.inl hm
      · refine Or.inr ⟨List.mem_cons_of_mem _ hm, fun hk => ?_⟩
        have : kv.1 ∈ rest.map Prod.fst := List.mem_map_of_mem Prod.fst hm
        rw [hk] at this
        have hc : (rest.map Prod.fst).contains k1 = false := by simpa using hnd.1
        have : (rest.map Prod.fst).contains k1 = true := by simpa using this
        simp_all
    · rw [assocSet, if_neg h1] at hm
      rcases List.mem_cons.mp hm with hm | hm
      · subst hm
        exact Or.inr ⟨List.mem_cons_self _ _, h1⟩
      · rcases ih hnd.2 hm with hh | hh
        · exact Or.inl hh
        · exact Or.inr ⟨List.mem_cons_of_mem _ hh.1, hh.2⟩

theorem mem_key_assocGet_isSome {κ α : Type} [DecidableEq κ] (l : List (κ × α))
    (kv : κ × α) (hm : kv ∈ l) : (assocGet l kv.1).isSome = true := by
  induction l with
  | nil => simp at hm
  | cons kv0 rest ih =>
    obtain ⟨k1, v1⟩ := kv0
    rcases List.mem_cons.mp hm with hm | hm
    · subst hm
      simp [assocGet]
    · by_cases h1 : k1 = kv.1
      · simp [assocGet, h1]
      · simpa [assocGet, h1] using ih hm

/-! ## The sanitizer leaves only good keys (value level) -/

theorem wfFields_mem (l : List (String × JVal)) (hwf : wfFields l = true) :
    ∀ kv ∈ l, wfVal kv.2 = true := by
  induction l with
  | nil => simp
  | cons kv0 rest ih =>
    simp only [wfFields, Bool.and_eq_true] at hwf
    intro kv hm
    rcases List.mem_cons.mp hm with hm | hm
    · subst hm
      exact hwf.1
    · exact ih hwf.2 kv hm

theorem wfFields_of_pointwise (l : List (String × JVal))
    (h : ∀ kv ∈ l, wfVal kv.2 = true) : wfFields l = true := by
  induction l with
  | nil => rfl
  | cons kv0 rest ih =>
    simp only [wfFields, Bool.and_eq_true]
    exact ⟨h kv0 (List.mem_cons_self _ _),
      ih fun kv hm => h kv (List.mem_cons_of_mem _ hm)⟩

theorem goodFields_of_pointwise (l : List (String × JVal))
    (h : ∀ kv ∈ l, goodKeyB kv.1 = true ∧ goodVal kv.2 = true) : goodFields l = true := by
  induction l with
  | nil => rfl
  | cons kv0 rest ih =>
    simp only [goodFields, Bool.and_eq_true]
    exact ⟨⟨(h kv0 (List.mem_cons_self _ _)).1, (h kv0 (List.mem_cons_self _ _)).2⟩,
      ih fun kv hm => h kv (List.mem_cons_of_mem _ hm)⟩

theorem cleanElems_wf_good (rec : JVal → Option JVal)
    (hrec : ∀ v w, wfVal v = true → rec v = some w → wfVal w = true ∧ goodVal w = true) :
    ∀ es ws, wfElems es = true → cleanElems rec es = some ws →
      wfElems ws = true ∧ goodElems ws = true := by
  intro es
  induction es with
  | nil =>
    intro ws _ h
    simp only [cleanElems, Option.some.injEq] at h
    subst h
    exact ⟨rfl, rfl⟩
  | cons v vs ih =>
    intro ws hwf h
    simp only [cleanElems] at h
    simp only [wfElems, Bool.and_eq_true] at hwf
    cases hv : rec v with
    | none => rw [hv] at h; cases h
    | some w =>
      rw [hv] at h
      cases hvs : cleanElems rec vs with
      | none => rw [hvs] at h; cases h
      | some ws2 =>
        rw [hvs] at h
        simp only [Option.some.injEq] at h
        subst h
        obtain ⟨hw1, hg1⟩ := hrec v w hwf.1 hv
        obtain ⟨hw2, hg2⟩ := ih ws2 hwf.2 hvs
        simp [wfElems, goodElems, hw1, hg1, hw2, hg2]

theorem cleanLoopT_invariant (rec : JVal → Option JVal)
    (hrec : ∀ v w, wfVal v = true → rec v = some w → wfVal w = true ∧ goodVal w = true) :
    ∀ (pending : List String) (fields fields2 : List (String × JVal)),
      nodupKeys (fields.map Prod.fst) = true →
      (∀ kv ∈ fields, wfVal kv.2 = true ∧
        (kv.1 ∈ pending ∨ (goodKeyB kv.1 = true ∧ goodVal kv.2 = true))) →
      cleanLoopT "_" rec pending fields = some fields2 →
      nodupKeys (fields2.map Prod.fst) = true ∧
      ∀ kv ∈ fields2, wfVal kv.2 = true ∧ goodKeyB kv.1 = true ∧ goodVal kv.2 = true := by
  intro pending
  induction pending with
  | nil =>
    intro fields fields2 hnd hinv h
    simp only [cleanLoopT, Option.some.injEq] at h
    subst h
    refine ⟨hnd, fun kv hm => ?_⟩
    obtain ⟨hwf, hgd⟩ := hinv kv hm
    rcases hgd with hp | hg
    · simp at hp
    · exact ⟨hwf, hg.1, hg.2⟩
  | cons k ks ih =>
    intro fields fields2 hnd hinv h
    simp only [cleanLoopT] at h
    cases hget : assocGet fields k with
    | none =>
      rw [hget] at h
      refine ih fields fields2 hnd (fun kv hm => ?_) h
      obtain ⟨hwf, hgd⟩ := hinv kv hm
      refine ⟨hwf, ?_⟩
      rcases hgd with hp | hg
      · rcases List.mem_cons.mp hp with hp | hp
        · exact absurd hp (assocGet_none_key_ne fields k hget kv hm)
        · exact Or.inl hp
      · exact Or.inr hg
    | some v =>
      rw [hget] at h
      have h2 : (match rec v with
          | none => none
          | some cv =>
            if isBadKey k = true then
              cleanLoopT "_" rec ks (assocSet (assocDel fields k) (sanitizeKey "_" k) cv)
            else cleanLoopT "_" rec ks (assocSet fields k cv)) = some fields2 := h
      clear h
      cases hv : rec v with
      | none => rw [hv] at h2; cases h2
      | some cv =>
        rw [hv] at h2
        simp only at h2
        have hmem : (k, v) ∈ fields := assocGet_mem fields k v hget
        have hwfv : wfVal v = true := (hinv (k, v) hmem).1
        obtain ⟨hwfc, hgoodc⟩ := hrec v cv hwfv hv
        by_cases hbad : isBadKey k = true
        · rw [if_pos hbad] at h2
          have hnd2 : nodupKeys ((assocDel fields k).map Prod.fst) = true :=
            nodupKeys_assocDel fields k hnd
          refine ih _ fields2 (nodupKeys_assocSet _ (sanitizeKey "_" k) cv hnd2)
            (fun kv hm => ?_) h2
          rcases mem_assocSet _ (sanitizeKey "_" k) cv kv hnd2 hm with hh | ⟨hh, _⟩
          · subst hh
            exact ⟨hwfc, Or.inr ⟨by simp [goodKeyB, isBadKey_sanitizeKey k], hgoodc⟩⟩
          · obtain ⟨hin, hkne⟩ := mem_assocDel fields k kv hnd hh
            obtain ⟨hwf, hgd⟩ := hinv kv hin
            refine ⟨hwf, ?_⟩
            rcases hgd with hp | hg
            · rcases List.mem_cons.mp hp with hp | hp
              · exact absurd hp hkne
              · exact Or.inl hp
            · exact Or.inr hg
        · rw [if_neg hbad] at h2
          have hgoodk : goodKeyB k = true := by
            have : isBadKey k = false := by
              revert hbad
              cases isBadKey k <;> simp
            simp [goodKeyB, this]
          refine ih _ fields2 (nodupKeys_assocSet fields k cv hnd) (fun kv hm => ?_) h2
          rcases mem_assocSet fields k cv kv hnd hm with hh | ⟨hh, hne⟩
          · subst hh
            exact ⟨hwfc, Or.inr ⟨hgoodk, hgoodc⟩⟩
          · obtain ⟨hwf, hgd⟩ := hinv kv hh
            refine ⟨hwf, ?_⟩
            rcases hgd with hp | hg
            · rcases List.mem_cons.mp hp with hp | hp
              · exact absurd hp hne
              · exact Or.inl hp
            · exact Or.inr hg

theorem cleanT_wf_good : ∀ (fuel : Nat) (v w : JVal), wfVal v = true →
    cleanT "_" fuel v = some w → wfVal w = true ∧ goodVal w = true := by
  intro fuel
  induction fuel with
  | zero =>
    intro v w hwf h
    cases v with
    | vnull => simp only [cleanT, Option.some.injEq] at h; subst h; exact ⟨rfl, rfl⟩
    | vbool b => simp only [cleanT, Option.some.injEq] at h; subst h; exact ⟨rfl, rfl⟩
    | vnum n => simp only [cleanT, Option.some.injEq] at h; subst h; exact ⟨rfl, rfl⟩
    | vstr s => simp only [cleanT, Option.some.injEq] at h; subst h; exact ⟨rfl, rfl⟩
    | varr es => simp [cleanT] at h
    | vobj fields => simp [cleanT] at h
  | succ fuel ih =>
    intro v w hwf h
    cases v with
    | vnull => simp only [cleanT, Option.some.injEq] at h; subst h; exact ⟨rfl, rfl⟩
    | vbool b => simp only [cleanT, Option.some.injEq] at h; subst h; exact ⟨rfl, rfl⟩
    | vnum n => simp only [cleanT, Option.some.injEq] at h; subst h; exact ⟨rfl, rfl⟩
    | vstr s => simp only [cleanT, Option.some.injEq] at h; subst h; exact ⟨rfl, rfl⟩
    | varr es =>
      simp only [cleanT] at h
      cases hce : cleanElems (cleanT "_" fuel) es with
      | none => rw [hce] at h; cases h
      | some ws =>
        rw [hce] at h
        simp only [Option.map_some', Option.some.injEq] at h
        subst h
        have hwfes : wfElems es = true := by simpa [wfVal] using hwf
        obtain ⟨hw, hg⟩ := cleanElems_wf_good (cleanT "_" fuel) ih es ws hwfes hce
        exact ⟨by simpa [wfVal] using hw, by simpa [goodVal] using hg⟩
    | vobj fields =>
      simp only [cleanT] at h
      cases hcl : cleanLoopT "_" (cleanT "_" fuel) (fields.map Prod.fst) fields with
      | none => rw [hcl] at h; cases h
      | some fields2 =>
        rw [hcl] at h
        simp only [Option.map_some', Option.some.injEq] at h
        subst h
        simp only [wfVal, Bool.and_eq_true] at hwf
        have hinv : ∀ kv ∈ fields, wfVal kv.2 = true ∧
            (kv.1 ∈ fields.map Prod.fst ∨ (goodKeyB kv.1 = true ∧ goodVal kv.2 = true)) :=
          fun kv hm => ⟨wfFields_mem fields hwf.2 kv hm,
            Or.inl (List.mem_map_of_mem Prod.fst hm)⟩
        obtain ⟨hnd2, hpt⟩ := cleanLoopT_invariant (cleanT "_" fuel) ih
          (fields.map Prod.fst) fields fields2 hwf.1 hinv hcl
        constructor
        · simp only [wfVal, Bool.and_eq_true]
          exact ⟨hnd2, wfFields_of_pointwise fields2 fun kv hm => (hpt kv hm).1⟩
        · simp only [goodVal]
          exact goodFields_of_pointwise fields2 fun kv hm =>
            ⟨(hpt kv hm).2.1, (hpt kv hm).2.2⟩

/-- C10: for every well-formed input value and the default replacement
string `_`, whenever `clean` returns (enough fuel for its recursion), no key
of any object in the result — at any depth, arrays included — starts with
`$` or contains `.`; and a value that is not an object (line 211-213) is
returned unchanged. -/
theorem clean_result_keys_sanitized (fuel : Nat) (v w : JVal)
    (hwf : wfVal v = true) (h : cleanT "_" fuel v = some w) :
    goodVal w = true ∧ (isPrimJ v = true → w = v) := by
  refine ⟨(cleanT_wf_good fuel v w hwf h).2, fun hp => ?_⟩
  cases v with
  | vnull => simp only [cleanT, Option.some.injEq] at h; exact h.symm
  | vbool b => simp only [cleanT, Option.some.injEq] at h; exact h.symm
  | vnum n => simp only [cleanT, Option.some.injEq] at h; exact h.symm
  | vstr s => simp only [cleanT, Option.some.injEq] at h; exact h.symm
  | varr es => simp [isPrimJ] at hp
  | vobj fields => simp [isPrimJ] at hp

/-- Witness for C10 on a payload with `$`-keys and dotted keys at several
depths, including inside an array. -/
theorem clean_result_keys_sanitized_witness :
    goodVal sampleCleaned = true ∧ (isPrimJ sampleDirty = true → sampleCleaned = sampleDirty) :=
  clean_result_keys_sanitized 4 sampleDirty sampleCleaned (by decide) rfl

/-! ## The sanitizer mutates objects in place (heap level) -/

theorem assocGet_append {κ α : Type} [DecidableEq κ] (l1 l2 : List (κ × α)) (k : κ) :
    assocGet (l1 ++ l2) k =
      match assocGet l1 k with
      | some v => some v
      | none => assocGet l2 k := by
  induction l1 with
  | nil => simp [assocGet]
  | cons kv rest ih =>
    obtain ⟨k1, v1⟩ := kv
    by_cases h1 : k1 = k <;> simp [assocGet, h1, ih]

theorem objAt_updateCell (h : Heap) (addr : Nat) (fs fs2 : List (String × HVal))
    (hat : assocGet h.cells addr = some (.hobj fs)) (a : Nat) :
    objAt (updateCell h addr (.hobj fs2)) a = objAt h a := by
  unfold objAt updateCell
  simp only
  rw [assocGet_assocSet]
  by_cases he : addr = a
  · subst he
    rw [if_pos rfl, hat]
  · rw [if_neg he]

theorem objAt_allocArr (h : Heap) (es : List HVal) (a : Nat) :
    objAt (allocCell h (.harr es)).1 a = objAt h a := by
  unfold objAt allocCell
  simp only
  rw [assocGet_append]
  cases hg : assocGet h.cells a with
  | some o => rfl
  | none => by_cases he : h.next = a <;> simp [assocGet, he]

theorem cleanHElems_objAt (rec : Heap → HVal → Option (Heap × HVal))
    (hrec : ∀ h v h2 v2, rec h v = some (h2, v2) → ∀ a, objAt h2 a = objAt h a) :
    ∀ (es : List HVal) (h : Heap) (h2 : Heap) (ws : List HVal),
      cleanHElems rec es h = some (h2, ws) → ∀ a, objAt h2 a = objAt h a := by
  intro es
  induction es with
  | nil =>
    intro h h2 ws hres a
    simp only [cleanHElems, Option.some.injEq, Prod.mk.injEq] at hres
    rw [hres.1]
  | cons v vs ih =>
    intro h h2 ws hres a
    simp only [cleanHElems] at hres
    cases hv : rec h v with
    | none => rw [hv] at hres; cases hres
    | some p =>
      obtain ⟨h1, w⟩ := p
      rw [hv] at hres
      have hres2 : (match cleanHElems rec vs h1 with
          | none => none
          | some (h3, ws2) => some (h3, w :: ws2)) = some (h2, ws) := hres
      clear hres
      cases hvs : cleanHElems rec vs h1 with
      | none => rw [hvs] at hres2; cases hres2
      | some q =>
        obtain ⟨h3, ws2⟩ := q
        rw [hvs] at hres2
        simp only [Option.some.injEq, Prod.mk.injEq] at hres2
        rw [← hres2.1]
        rw [ih h1 h3 ws2 hvs a, hrec h v h1 w hv a]

theorem cleanHLoop_objAt (rw : String) (rec : Heap → HVal → Option (Heap × HVal))
    (hrec : ∀ h v h2 v2, rec h v = some (h2, v2) → ∀ a, objAt h2 a = objAt h a)
    (addr : Nat) :
    ∀ (ks : List String) (h h2 : Heap),
      cleanHLoop rw rec addr ks h = some h2 → ∀ a, objAt h2 a = objAt h a := by
  intro ks
  induction ks with
  | nil =>
    intro h h2 hres a
    simp only [cleanHLoop, Option.some.injEq] at hres
    rw [hres]
  | cons k ks ih =>
    intro h h2 hres a
    simp only [cleanHLoop] at hres
    cases hcell : assocGet h.cells addr with
    | none => rw [hcell] at hres; cases hres
    | some o =>
      rw [hcell] at hres
      cases o with
      | harr es => cases hres
      | hobj fields =>
        have hres2 : (match assocGet fields k with
            | none => cleanHLoop rw rec addr ks h
            | some v =>
              match rec h v with
              | none => none
              | some (h2, cv) =>
                match assocGet h2.cells addr with
                | some (.hobj fields2) =>
                  cleanHLoop rw rec addr ks (updateCell h2 addr (.hobj
                    (if isBadKey k = true then
                      assocSet (assocDel fields2 k) (sanitizeKey rw k) cv
                    else assocSet fields2 k cv)))
                | _ => none) = some h2 := hres
        clear hres
        cases hget : assocGet fields k with
        | none =>
          rw [hget] at hres2
          exact ih h h2 hres2 a
        | some v =>
          rw [hget] at hres2
          have hres2b : (match rec h v with
              | none => none
              | some (hx, cv) =>
                match assocGet hx.cells addr with
                | some (.hobj fields2) =>
                  cleanHLoop rw rec addr ks (updateCell hx addr (.hobj
                    (if isBadKey k = true then
                      assocSet (assocDel fields2 k) (sanitizeKey rw k) cv
                    else assocSet fields2 k cv)))
                | _ => none) = some h2 := hres2
          clear hres2
          cases hv : rec h v with
          | none => rw [hv] at hres2b; cases hres2b
          | some p =>
            obtain ⟨hmid, cv⟩ := p
            rw [hv] at hres2b
            have hres3 : (match assocGet hmid.cells addr with
                | some (.hobj fields2) =>
                  cleanHLoop rw rec addr ks (updateCell hmid addr (.hobj
                    (if isBadKey k = true then
                      assocSet (assocDel fields2 k) (sanitizeKey rw k) cv
                    else assocSet fields2 k cv)))
                | _ => none) = some h2 := hres2b
            clear hres2b
            cases hcell2 : assocGet hmid.cells addr with
            | none => rw [hcell2] at hres3; cases hres3
            | some o2 =>
              rw [hcell2] at hres3
              cases o2 with
              | harr es2 => cases hres3
              | hobj fields2 =>
                have hstep := ih _ h2 hres3 a
                rw [hstep, objAt_updateCell hmid addr fields2 _ hcell2 a,
                  hrec h v hmid cv hv a]

theorem cleanH_objAt (rw : String) :
    ∀ (fuel : Nat) (h : Heap) (v : HVal) (h2 : Heap) (v2 : HVal),
      cleanH rw fuel h v = some (h2, v2) → ∀ a, objAt h2 a = objAt h a := by
  intro fuel
  induction fuel with
  | zero =>
    intro h v h2 v2 hres a
    cases v with
    | hnull => simp only [cleanH, Option.some.injEq, Prod.mk.injEq] at hres; rw [hres.1]
    | hbool b => simp only [cleanH, Option.some.injEq, Prod.mk.injEq] at hres; rw [hres.1]
    | hnum n => simp only [cleanH, Option.some.injEq, Prod.mk.injEq] at hres; rw [hres.1]
    | hstr s => simp only [cleanH, Option.some.injEq, Prod.mk.injEq] at hres; rw [hres.1]
    | href addr => simp [cleanH] at hres
  | succ fuel ih =>
    intro h v h2 v2 hres a
    cases v with
    | hnull => simp only [cleanH, Option.some.injEq, Prod.mk.injEq] at hres; rw [hres.1]
    | hbool b => simp only [cleanH, Option.some.injEq, Prod.mk.injEq] at hres; rw [hres.1]
    | hnum n => simp only [cleanH, Option.some.injEq, Prod.mk.injEq] at hres; rw [hres.1]
    | hstr s => simp only [cleanH, Option.some.injEq, Prod.mk.injEq] at hres; rw [hres.1]
    | href addr =>
      simp only [cleanH] at hres
      cases hcell : assocGet h.cells addr with
      | none => rw [hcell] at hres; cases hres
      | some o =>
        rw [hcell] at hres
        cases o with
        | harr elems =>
          have hres2 : (match cleanHElems (cleanH rw fuel) elems h with
              | none => none
              | some (hh, elems2) => some (allocCell hh (.harr elems2))) =
                some (h2, v2) := hres
          clear hres
          cases helems : cleanHElems (cleanH rw fuel) elems h with
          | none => rw [helems] at hres2; cases hres2
          | some q =>
            obtain ⟨hmid, elems2⟩ := q
            rw [helems] at hres2
            simp only [Option.some.injEq] at hres2
            have h2eq : h2 = (allocCell hmid (.harr elems2)).1 := by
              rw [hres2]
            rw [h2eq, objAt_allocArr hmid elems2 a]
            exact cleanHElems_objAt (cleanH rw fuel) ih elems h hmid elems2 helems a
        | hobj fields =>
          have hres2 : (match cleanHLoop rw (cleanH rw fuel) addr (fields.map Prod.fst) h with
              | none => none
              | some hh => some (hh, HVal.href addr)) = some (h2, v2) := hres
          clear hres
          cases hloop : cleanHLoop rw (cleanH rw fuel) addr (fields.map Prod.fst) h with
          | none => rw [hloop] at hres2; cases hres2
          | some hh =>
            rw [hloop] at hres2
            simp only [Option.some.injEq, Prod.mk.injEq] at hres2
            rw [← hres2.1]
            exact cleanHLoop_objAt rw (cleanH rw fuel) ih addr
              (fields.map Prod.fst) h hh hloop a

/-- C8: `clean` rewrites in place.  For every heap and reference: when the
input is a reference to an object, the very same reference is returned
(`return value`, line 250), not a fresh copy; and the set of addresses
holding objects is unchanged — no object is ever copied to a new cell or
dropped, so all key rewriting anywhere in the structure (at any depth,
including objects sitting inside arrays, whose cells the recursive calls
likewise rewrite at their existing addresses) happens by mutating the
existing object cells.  (Arrays, by contrast, are rebuilt by `map` at fresh
addresses, line 216.) -/
theorem clean_mutates_in_place (rw : String) (fuel : Nat) (h h2 : Heap) (v v2 : HVal)
    (hres : cleanH rw fuel h v = some (h2, v2)) :
    (∀ a, v = .href a → objAt h a = true → v2 = v) ∧
    (∀ a, objAt h2 a = objAt h a) := by
  refine ⟨?_, cleanH_objAt rw fuel h v h2 v2 hres⟩
  intro a hv hobj
  subst hv
  cases fuel with
  | zero => simp [cleanH] at hres
  | succ fuel =>
    simp only [cleanH] at hres
    cases hcell : assocGet h.cells a with
    | none =>
      unfold objAt at hobj
      rw [hcell] at hobj
      cases hobj
    | some o =>
      rw [hcell] at hres
      cases o with
      | harr es =>
        unfold objAt at hobj
        rw [hcell] at hobj
        cases hobj
      | hobj fields =>
        have hres2 : (match cleanHLoop rw (cleanH rw fuel) a (fields.map Prod.fst) h with
            | none => none
            | some hh => some (hh, HVal.href a)) = some (h2, v2) := hres
        clear hres
        cases hloop : cleanHLoop rw (cleanH rw fuel) a (fields.map Prod.fst) h with
        | none => rw [hloop] at hres2; cases hres2
        | some hh =>
          rw [hloop] at hres2
          simp only [Option.some.injEq, Prod.mk.injEq] at hres2
          rw [← hres2.2]

/-- Witness for C8 on `heapSample`: the object reference comes back
unchanged, and the address holding the nested (and array-shared) object 1
still holds an object afterwards. -/
theorem clean_mutates_in_place_witness :
    HVal.href 0 = HVal.href 0 ∧ objAt heapSampleCleaned 1 = objAt heapSample 1 :=
  ⟨(clean_mutates_in_place "_" 5 heapSample heapSampleCleaned (.href 0) (.href 0)
      rfl).1 0 rfl (by decide),
   (clean_mutates_in_place "_" 5 heapSample heapSampleCleaned (.href 0) (.href 0)
      rfl).2 1⟩

end Seo
